import Mathlib

/-!
Shallow embedding of `issues.py` from the googlecode-issues-exporter
repository: the Google Code → issue-service migration engine.  Text is
modelled as `List Char`; the Python functions are translated definition by
definition, and the engine's service calls are recorded as an event trace.
-/

set_option maxRecDepth 10000

/-- Text is modelled as a list of characters (Python `str`). -/
abbrev Chars := List Char

/-- `pat` is a prefix of `s` (Python `str.startswith` / `re.match` with an
anchored literal pattern). -/
def startsWith : Chars → Chars → Bool
  | [], _ => true
  | _ :: _, [] => false
  | p :: ps, c :: cs => p == c && startsWith ps cs

/-- `pat` occurs as a contiguous substring of `s` (Python `pat in s`). -/
def containsSeq (pat : Chars) : Chars → Bool
  | [] => startsWith pat []
  | c :: cs => startsWith pat (c :: cs) || containsSeq pat cs

/-- Python `sep.join(pieces)` for a single-separator join. -/
def joinWith (sep : Chars) : List Chars → Chars
  | [] => []
  | [l] => l
  | l :: l2 :: ls => l ++ sep ++ joinWith sep (l2 :: ls)

/-- Python `s.split("\n")`: never returns an empty list. -/
def splitLines : Chars → List Chars
  | [] => [[]]
  | c :: cs =>
    if c = '\n' then [] :: splitLines cs
    else
      match splitLines cs with
      | [] => [[c]]
      | l :: ls => (c :: l) :: ls

/-- Decimal rendering of a natural number (Python `"%s" % n` / `"%d" % n`). -/
def natChars (n : Nat) : Chars := (toString n).data

/-- Decimal rendering of an integer. -/
def intChars (n : Int) : Chars := (toString n).data

/-- Python `str.lower` (ASCII usernames/statuses in this archive). -/
def lowerChars (s : Chars) : Chars := s.map Char.toLower

/-- The four-space preformat indent from `FixUpComment`. -/
def spaces4 : Chars := "    ".data

/-- After the leading `#` of a line: zero or more further `#` then a space
(the rest of Python `re.match(r'^#+ ', line)`). -/
def headingTail : Chars → Bool
  | '#' :: rest => headingTail rest
  | ' ' :: _ => true
  | _ => false

/-- Python `re.match(r'^#+ ', line)`: one or more `#` followed by a space. -/
def isHeading : Chars → Bool
  | '#' :: rest => headingTail rest
  | _ => false

/-- A line that switches `FixUpComment` into preformat mode: a heading, a
line starting with `Index: `, or a line containing `--- cut here ---`. -/
def isTrigger (line : Chars) : Bool :=
  isHeading line || startsWith "Index: ".data line || containsSeq "--- cut here ---".data line

/-- Python `re.sub(r"#(\d+)", r"#&nbsp;\g<1>", line)`.  A (non-overlapping,
left-to-right) match of `#\d+` begins exactly at each `#` that is immediately
followed by a digit, the replacement re-emits the matched digit run unchanged
after `#&nbsp;`, and a digit run contains no further `#`, so the substitution
is exactly: insert `&nbsp;` after every `#` whose next character is a digit. -/
def subHash : Chars → Chars
  | [] => []
  | '#' :: cs =>
    match cs with
    | [] => ['#']
    | c :: rest =>
      if c.isDigit then '#' :: ("&nbsp;".data ++ subHash (c :: rest))
      else '#' :: subHash (c :: rest)
  | c :: cs => c :: subHash cs

/-- The line-by-line loop body of `FixUpComment`: carries the
`preformat_rest_of_comment` flag across the lines. -/
def fixUpLinesAux : Bool → List Chars → List Chars
  | _, [] => []
  | pre, line :: rest =>
    let pre2 := pre || isTrigger line
    (if pre2 then spaces4 ++ line else subHash line) :: fixUpLinesAux pre2 rest

/-- `FixUpComment(comment)` from `issues.py`: split on newlines, run the
preformat state machine, re-join with newlines. -/
def FixUpComment (s : Chars) : Chars :=
  joinWith "\n".data (fixUpLinesAux false (splitLines s))

example : subHash "see #42 ok".data = "see #&nbsp;42 ok".data := by decide
example : isTrigger "# Heading".data = true := by decide
example : isTrigger "#42 is broken".data = false := by decide
example : FixUpComment "see #42\n# Heading\n#42 is broken".data =
    "see #&nbsp;42\n    # Heading\n    #42 is broken".data := by decide

/-- An attachment record of a Google Code comment.  `isDeleted` is `none`
when the `"isDeleted"` key is absent from the dictionary and `some b` when it
is present with value `b` (the code only ever tests key presence). -/
structure Attachment where
  fileName : Chars
  isDeleted : Option Bool
deriving DecidableEq

/-- A raw Google Code comment dictionary (one entry of
`issue["comments"]["items"]`): id, optional `"author"` key (its `"name"`
field), `"published"` date, `"content"` text, and the optional
`"attachments"` key. -/
structure GCCommentRec where
  id : Nat
  authorName : Option Chars
  published : Chars
  content : Chars
  attachments : Option (List Attachment)
deriving DecidableEq

/-- A raw Google Code issue dictionary: id, title, `"status"`, the optional
`"state"` key, and the `"comments"]["items"` list whose first element is the
issue description. -/
structure GCIssueRec where
  id : Nat
  title : Chars
  status : Chars
  state : Option Chars
  comments : List GCCommentRec
deriving DecidableEq

/-- `GoogleCodeIssue.GetComments`: all items except the first (the first item
is always the issue description). -/
def GetComments (i : GCIssueRec) : List GCCommentRec := i.comments.tail

/-- `GoogleCodeIssue.IsOpen` (renamed: Mathlib already declares `IsOpen`):
the `"state"` key is present and equals `"open"`. -/
def IssueIsOpen (i : GCIssueRec) : Bool :=
  match i.state with
  | some s => s == "open".data
  | none => false

/-- `GoogleCodeIssue.GetStatus`: lower-case the `"status"` field and map
`"accepted"` to `"open"`. -/
def GetStatus (i : GCIssueRec) : Chars :=
  let status := lowerChars i.status
  if status = "accepted".data then "open".data else status

/-- The user directory built by `LoadUserData`: a
`collections.defaultdict(lambda: default_username)` updated with the
explicit entries of the user file. -/
structure UserMap where
  entries : List (Chars × Chars)
  dflt : Chars
deriving DecidableEq

/-- Looking a username up in the defaultdict: the explicit entry if one
exists, the configured default otherwise (never an error). -/
def UserMap.find (m : UserMap) (k : Chars) : Chars :=
  match List.lookup k m.entries with
  | some v => v
  | none => m.dflt

/-- `LoadUserData(user_file_path, default_username, user_service)`.  The file
contents are modelled as `none` for a falsy path and `some entries` for the
parsed `"users"` object; `isUser` is the `UserService.IsUser` capability.
If any mapped value is not a user, `InvalidUserError` is raised (modelled as
`Except.error` carrying the message). -/
def LoadUserData (userFile : Option (List (Chars × Chars))) (defaultUsername : Chars)
    (isUser : Chars → Bool) : Except Chars UserMap :=
  match userFile with
  | none => .ok ⟨[], defaultUsername⟩
  | some entries =>
    match entries.find? (fun p => ! isUser p.2) with
    | some p => .error (p.2 ++ " is not a User".data)
    | none => .ok ⟨entries, defaultUsername⟩

/-- `GoogleCodeComment.GetAuthor`: `None` when the `"author"` key is absent,
otherwise the user-map image of the author name. -/
def GetAuthor (m : UserMap) (c : GCCommentRec) : Option Chars :=
  match c.authorName with
  | none => none
  | some a => some (m.find a)

/-- Python `"%s" % x` where `x` may be `None`. -/
def formatOpt : Option Chars → Chars
  | none => "None".data
  | some s => s

/-- The deterministic attachment storage URL built from project name, issue
id, comment id and filename. -/
def storageLink (project : Chars) (issueId commentId : Nat) (fileName : Chars) : Chars :=
  "https://storage.googleapis.com/google-code-attachments/".data ++ project
    ++ "/issue-".data ++ natChars issueId ++ "/comment-".data ++ natChars commentId
    ++ "/".data ++ fileName

/-- `has_extension` from `GetContent`: lower-cased filename ends with the
extension. -/
def hasExtension (fileName ext : Chars) : Bool :=
  ext.isSuffixOf (lowerChars fileName)

/-- The extension list the image loop of `GetContent` ranges over. -/
def imageExtensions : List Chars :=
  [".png".data, ".jpg".data, ".jpeg".data, ".bmp".data, ".tif".data, ".gif".data]

/-- The `is_image_attachment` accumulation of `GetContent`.  Note the loop
body of the source tests `has_extension(".png")` on every iteration; the
loop variable `extension` is never used. -/
def isImageAttachment (fileName : Chars) : Bool :=
  imageExtensions.foldl (fun acc _ext => acc || hasExtension fileName ".png".data) false

/-- One iteration of the attachment loop of `GoogleCodeComment.GetContent`:
the line appended to `attachmentLines` for one attachment. -/
def attachmentLine (project : Chars) (issueId commentId : Nat) (a : Attachment) : Chars :=
  if a.isDeleted.isSome then
    " * *Attachment: ".data ++ a.fileName ++ " (deleted)*".data
  else
    let link := storageLink project issueId commentId a.fileName
    if isImageAttachment a.fileName then
      " * *Attachment: ".data ++ a.fileName ++ "<br>![".data ++ a.fileName
        ++ "](".data ++ link ++ ")*".data
    else
      " * *Attachment: [".data ++ a.fileName ++ "](".data ++ link ++ ")*".data

/-- `GoogleCodeComment.GetContent`: the comment body, followed (when there is
at least one attachment line) by `\n<hr>\n` and the newline-joined
attachment lines. -/
def GetContent (project : Chars) (issueId : Nat) (c : GCCommentRec) : Chars :=
  let atts := match c.attachments with | some l => l | none => []
  let attachmentLines := atts.map (attachmentLine project issueId c.id)
  if attachmentLines.length > 0 then
    c.content ++ "\n<hr>\n".data ++ joinWith "\n".data attachmentLines
  else c.content

/-- The per-comment source URL of `GoogleCodeComment.GetDescription`. -/
def commentUrl (project : Chars) (issueId commentId : Nat) : Chars :=
  "https://code.google.com/p/".data ++ project ++ "/issues/detail?id=".data
    ++ natChars issueId ++ "#c".data ++ natChars commentId

/-- `GoogleCodeComment.GetDescription`: the (possibly placeholder) comment
text behind the provenance header.  The emptiness test is performed on the
raw `GetContent` result, before `FixUpComment`. -/
def GetDescription (m : UserMap) (project : Chars) (issueId : Nat) (c : GCCommentRec) : Chars :=
  let commentText := GetContent project issueId c
  let commentText :=
    if commentText = [] then "&lt;empty&gt;".data else FixUpComment commentText
  "Comment [#".data ++ natChars c.id ++ "](".data ++ commentUrl project issueId c.id
    ++ ") originally posted by ".data ++ formatOpt (GetAuthor m c) ++ " on ".data
    ++ c.published ++ ":\n\n".data ++ commentText

/-- The value stored in `_previously_created_issues` for one target issue:
its title and its comment count as reported by the target service. -/
structure PrevIssue where
  title : Chars
  commentCount : Nat
deriving DecidableEq

/-- One element of a `GetIssues` result from the target service:
`{id, title, comments}`. -/
structure ServiceIssue where
  id : Nat
  title : Chars
  comments : Nat
deriving DecidableEq

/-- The message passed to `die` when the target service returns two issues
with the same id. -/
def dupMsg : Chars := "GitHub returned multiple issues with the same ID?".data

/-- Modelled from the spec: `die` is called by `_GetAllPreviousIssues` but
defined nowhere under src/; per the spec a duplicate target id is a fatal
consistency error that aborts the run with a human-readable message, so
`die(message)` is modelled as aborting with that message (`Except.error`).
This is the recursive accumulation of `_GetAllPreviousIssues` over the
concatenated open and closed issue lists: each issue id must be new, then
its title and comment count are recorded. -/
def addPrevIssues (acc : List (Nat × PrevIssue)) :
    List ServiceIssue → Except Chars (List (Nat × PrevIssue))
  | [] => .ok acc
  | s :: rest =>
    if (List.lookup s.id acc).isSome then .error dupMsg
    else addPrevIssues (acc ++ [(s.id, ⟨s.title, s.comments⟩)]) rest

/-- `IssueExporter._GetAllPreviousIssues` (also the body of `Init`): union
the open and closed issue lists and populate the reconciliation index keyed
by issue id, aborting on a duplicate id. -/
def GetAllPreviousIssues (openIssues closedIssues : List ServiceIssue) :
    Except Chars (List (Nat × PrevIssue)) :=
  addPrevIssues [] (openIssues ++ closedIssues)

/-- A call the engine makes on the issue service, recorded as a trace
event: `CreateIssue(issue)`, `CreateComment(issue_number, source_issue_id,
comment)` (the constant project-name argument is omitted), or
`CloseIssue(issue_number)`. -/
inductive Event where
  | createIssue (issue : GCIssueRec)
  | createComment (issueNumber : Int) (sourceIssueId : Nat) (comment : GCCommentRec)
  | closeIssue (issueNumber : Int)
deriving DecidableEq

/-- The `last_gh_issue_id` scan of `Start`: fold over the keys of
`_previously_created_issues` starting from `-1`, keeping the largest. -/
def lastGhIssueId (prev : List (Nat × PrevIssue)) : Int :=
  prev.foldl (fun acc p => if (p.1 : Int) > acc then (p.1 : Int) else acc) (-1)

/-- The `RuntimeError` message raised when the repair pass cannot locate the
canonical issue matching the most recent target issue. -/
def missingLastMsg (lastId : Nat) (title : Chars) : Chars :=
  "Unable to find Google Code issue #".data ++ natChars lastId ++ " ".data ++ title
    ++ ".\nWere GitHub issues added since the last import started?".data

/-- The startup repair block of `IssueExporter.Start` (lines 588-630, run
when `_previously_created_issues` is non-empty): locate the highest
previously-created id, find the canonical issue with that id and title
(a failure is a fatal `RuntimeError`), and when the recorded comment count
differs from the canonical one, create the comments with indices
`range(comment_count, num_gc_issue_comments)` addressed to that id.
Returns the `CreateComment` events of the pass. -/
def startRepair (prev : List (Nat × PrevIssue)) (archive : List GCIssueRec) :
    Except Chars (List Event) :=
  let lastId := (lastGhIssueId prev).toNat
  match List.lookup lastId prev with
  | none => .error "KeyError".data
  | some lastGh =>
    match archive.find? (fun i => i.id == lastId && i.title == lastGh.title) with
    | none => .error (missingLastMsg lastId lastGh.title)
    | some lastGc =>
      let numComments := (GetComments lastGc).length
      if lastGh.commentCount ≠ numComments then
        .ok ((List.range' lastGh.commentCount (numComments - lastGh.commentCount)).map
          (fun idx => Event.createComment (lastGc.id : Int) lastGc.id
            ((GetComments lastGc).getD idx ⟨0, none, [], [], none⟩)))
      else .ok []

/-- The `RuntimeError` message raised on a post-create id mismatch. -/
def mismatchMsg (i : GCIssueRec) (got : Int) : Chars :=
  "Google Code and GitHub issue nos mismatch at #".data ++ natChars i.id
    ++ " (got ".data ++ intChars got ++ ")".data

/-- The main replay loop of `IssueExporter.Start` over the remaining archive
issues.  `keys` are the ids of `_previously_created_issues`; `cr` gives the
issue number the service's `CreateIssue` returns for an issue.  Produces the
events of the remaining iterations, the fatal error if one is raised, and
the number of issues skipped: an already-present id is skipped; a negative
`CreateIssue` result skips comment replay; a non-negative result different
from the source id halts the run with a `RuntimeError`; otherwise all
comments (description excluded) are replayed in order and the issue is
closed when its state is not open. -/
def mainLoop (keys : List Nat) (cr : GCIssueRec → Int) :
    List GCIssueRec → List Event × Option Chars × Nat
  | [] => ([], none, 0)
  | i :: rest =>
    if i.id ∈ keys then
      let r := mainLoop keys cr rest
      (r.1, r.2.1, r.2.2 + 1)
    else
      let n := cr i
      if n < 0 then
        let r := mainLoop keys cr rest
        (Event.createIssue i :: r.1, r.2.1, r.2.2)
      else if n ≠ (i.id : Int) then
        ([Event.createIssue i], some (mismatchMsg i n), 0)
      else
        let commentEvs := (GetComments i).map (fun c => Event.createComment n i.id c)
        let closeEvs := if IssueIsOpen i then ([] : List Event) else [Event.closeIssue n]
        let r := mainLoop keys cr rest
        (Event.createIssue i :: (commentEvs ++ closeEvs ++ r.1), r.2.1, r.2.2)

/-- `IssueExporter.Start`: when the reconciliation index is non-empty run the
repair pass first (its fatal error aborts before the main loop), then run
the main replay loop.  Returns the full service-call trace, the fatal error
if one was raised, and the final `_skipped_issues` counter. -/
def Start (prev : List (Nat × PrevIssue)) (archive : List GCIssueRec)
    (cr : GCIssueRec → Int) : List Event × Option Chars × Nat :=
  if prev.length ≠ 0 then
    match startRepair prev archive with
    | .error e => ([], some e, 0)
    | .ok repairEvs =>
      let r := mainLoop (prev.map Prod.fst) cr archive
      (repairEvs ++ r.1, r.2.1, r.2.2)
  else
    mainLoop (prev.map Prod.fst) cr archive

theorem fixUpLinesAux_true :
    ∀ ls : List Chars, fixUpLinesAux true ls = ls.map (fun l => spaces4 ++ l) := by
  intro ls
  induction ls with
  | nil => rfl
  | cons l rest ih => simp [fixUpLinesAux, ih]

theorem fixUpLinesAux_length :
    ∀ (b : Bool) (ls : List Chars), (fixUpLinesAux b ls).length = ls.length := by
  intro b ls
  induction ls generalizing b with
  | nil => rfl
  | cons l rest ih => simp [fixUpLinesAux, ih]

theorem fixUpLinesAux_preformat :
    ∀ (ls : List Chars) (i j : Nat) (li lj : Chars), i ≤ j →
      ls[i]? = some li → isTrigger li = true → ls[j]? = some lj →
      (fixUpLinesAux false ls)[j]? = some (spaces4 ++ lj) := by
  intro ls
  induction ls with
  | nil => intro i j li lj _ h; simp at h
  | cons l rest ih =>
    intro i j li lj hij hi htrig hj
    cases i with
    | zero =>
      rw [List.getElem?_cons_zero] at hi
      have hl : l = li := Option.some.inj hi
      subst hl
      cases j with
      | zero =>
        rw [List.getElem?_cons_zero] at hj
        have : l = lj := Option.some.inj hj
        subst this
        simp [fixUpLinesAux, htrig]
      | succ j2 =>
        rw [List.getElem?_cons_succ] at hj
        simp only [fixUpLinesAux, htrig, Bool.false_or, if_pos, fixUpLinesAux_true,
          List.getElem?_cons_succ, List.getElem?_map, hj, Option.map_some']
    | succ i2 =>
      cases j with
      | zero => omega
      | succ j2 =>
        rw [List.getElem?_cons_succ] at hi hj
        cases hl : isTrigger l with
        | true =>
          simp only [fixUpLinesAux, hl, Bool.false_or, if_pos, fixUpLinesAux_true,
            List.getElem?_cons_succ, List.getElem?_map, hj, Option.map_some']
        | false =>
          simp only [fixUpLinesAux, hl, Bool.false_or, List.getElem?_cons_succ]
          exact ih i2 j2 li lj (Nat.le_of_succ_le_succ hij) hi htrig hj

theorem fixUpLinesAux_plain :
    ∀ (ls : List Chars) (j : Nat) (lj : Chars),
      (∀ (i : Nat) (li : Chars), i ≤ j → ls[i]? = some li → isTrigger li = false) →
      ls[j]? = some lj →
      (fixUpLinesAux false ls)[j]? = some (subHash lj) := by
  intro ls
  induction ls with
  | nil => intro j lj _ h; simp at h
  | cons l rest ih =>
    intro j lj hno hj
    have hl : isTrigger l = false := hno 0 l (Nat.zero_le _) List.getElem?_cons_zero
    cases j with
    | zero =>
      rw [List.getElem?_cons_zero] at hj
      have : l = lj := Option.some.inj hj
      subst this
      simp [fixUpLinesAux, hl]
    | succ j2 =>
      rw [List.getElem?_cons_succ] at hj
      simp only [fixUpLinesAux, hl, Bool.false_or, List.getElem?_cons_succ]
      exact ih j2 lj
        (fun i li hi hget => hno (i + 1) li (Nat.succ_le_succ hi)
          (by rw [List.getElem?_cons_succ]; exact hget)) hj

theorem lookup_isSome_iff {α : Type} {β : Type} [BEq α] [LawfulBEq α] (k : α) :
    ∀ l : List (α × β), (List.lookup k l).isSome = true ↔ k ∈ l.map Prod.fst := by
  intro l
  induction l with
  | nil => simp [List.lookup]
  | cons p rest ih =>
    obtain ⟨a, b⟩ := p
    by_cases hk : k = a
    · subst hk; simp [List.lookup]
    · have hbeq : (k == a) = false := beq_false_of_ne hk
      simp [List.lookup, hbeq, ih, hk]

theorem lookup_some_mem_keys {α : Type} {β : Type} [BEq α] [LawfulBEq α] {k : α} {v : β}
    {l : List (α × β)} (h : List.lookup k l = some v) : k ∈ l.map Prod.fst :=
  (lookup_isSome_iff k l).mp (by rw [h]; rfl)

theorem lookup_none_of_not_mem {α : Type} {β : Type} [BEq α] [LawfulBEq α] {k : α}
    {l : List (α × β)} (h : k ∉ l.map Prod.fst) : List.lookup k l = none := by
  cases hl : List.lookup k l with
  | none => rfl
  | some v => exact absurd (lookup_some_mem_keys hl) h

theorem map_getD_range'_shift {α : Type} (d a : α) (t : List α) :
    ∀ (n k : Nat), (List.range' (k + 1) n).map (fun i => (a :: t).getD i d) =
      (List.range' k n).map (fun i => t.getD i d) := by
  intro n
  induction n with
  | zero => intro k; rfl
  | succ n ih =>
    intro k
    rw [List.range'_succ, List.range'_succ, List.map_cons, List.map_cons,
      List.getD_cons_succ, ih (k + 1)]

theorem map_getD_range'_eq_drop {α : Type} (d : α) :
    ∀ (l : List α) (k : Nat), k ≤ l.length →
      (List.range' k (l.length - k)).map (fun i => l.getD i d) = l.drop k := by
  intro l
  induction l with
  | nil =>
    intro k hk
    have : k = 0 := Nat.le_zero.mp (by simpa using hk)
    subst this
    rfl
  | cons a t ih =>
    intro k hk
    cases k with
    | zero =>
      have hlen : (a :: t).length - 0 = t.length + 1 := by simp
      rw [hlen, List.range'_succ, List.map_cons, List.getD_cons_zero,
        map_getD_range'_shift, List.drop_zero]
      have h0 := ih 0 (Nat.zero_le _)
      rw [Nat.sub_zero, List.drop_zero] at h0
      rw [h0]
    | succ k2 =>
      have hk2 : k2 ≤ t.length := Nat.le_of_succ_le_succ (by simpa using hk)
      have hlen : (a :: t).length - (k2 + 1) = t.length - k2 := by simp
      rw [hlen, map_getD_range'_shift, ih k2 hk2, List.drop_succ_cons]

theorem startRepair_events_comment {prev : List (Nat × PrevIssue)} {archive : List GCIssueRec}
    {evs : List Event} (h : startRepair prev archive = .ok evs) :
    ∀ e ∈ evs, ∃ n s c, e = Event.createComment n s c ∧ s ∈ prev.map Prod.fst := by
  simp only [startRepair] at h
  cases hcl : List.lookup (lastGhIssueId prev).toNat prev with
  | none => rw [hcl] at h; exact absurd h (by simp)
  | some gh =>
    rw [hcl] at h
    simp only at h
    cases hf : archive.find?
        (fun i => i.id == (lastGhIssueId prev).toNat && i.title == gh.title) with
    | none => rw [hf] at h; exact absurd h (by simp)
    | some gc =>
      rw [hf] at h
      simp only at h
      have hid : gc.id = (lastGhIssueId prev).toNat := by
        have hp := List.find?_some hf
        simp only [Bool.and_eq_true, beq_iff_eq] at hp
        exact hp.1
      by_cases hne : gh.commentCount ≠ (GetComments gc).length
      · rw [if_pos hne] at h
        have hevs := Except.ok.inj h
        intro e he
        rw [← hevs] at he
        obtain ⟨idx, _, hEq⟩ := List.mem_map.mp he
        refine ⟨(gc.id : Int), gc.id, _, hEq.symm, ?_⟩
        rw [hid]
        exact lookup_some_mem_keys hcl
      · rw [if_neg hne] at h
        have hevs := Except.ok.inj h
        intro e he
        rw [← hevs] at he
        simp at he

theorem mainLoop_all_skipped (keys : List Nat) (cr : GCIssueRec → Int) :
    ∀ l : List GCIssueRec, (∀ i ∈ l, i.id ∈ keys) →
      mainLoop keys cr l = ([], none, l.length) := by
  intro l
  induction l with
  | nil => intro _; rfl
  | cons i rest ih =>
    intro h
    have hi : i.id ∈ keys := h i (List.mem_cons_self i rest)
    simp [mainLoop, hi, ih (fun j hj => h j (List.mem_cons_of_mem _ hj))]

theorem mainLoop_mismatch (cr : GCIssueRec → Int) (i : GCIssueRec) :
    ∀ (l : List GCIssueRec) (keys : List Nat), i ∈ l →
      (l.map GCIssueRec.id).Nodup → i.id ∉ keys → 0 ≤ cr i → cr i ≠ (i.id : Int) →
      (mainLoop keys cr l).2.1.isSome = true ∧
        ∀ (n : Int) (c : GCCommentRec),
          Event.createComment n i.id c ∉ (mainLoop keys cr l).1 := by
  intro l
  induction l with
  | nil => intro keys h; intro _ _ _ _; simp at h
  | cons j rest ih =>
    intro keys hmem hnd hkey hpos hne
    rw [List.map_cons, List.nodup_cons] at hnd
    obtain ⟨hjid, hndrest⟩ := hnd
    rcases List.mem_cons.mp hmem with rfl | hmemrest
    · have hneg : ¬ cr i < 0 := by omega
      simp only [mainLoop, if_neg hkey, if_neg hneg, if_pos hne]
      refine ⟨rfl, ?_⟩
      intro n c h
      simp at h
    · have hne_id : j.id ≠ i.id := by
        intro hEq
        exact hjid (hEq ▸ List.mem_map.mpr ⟨i, hmemrest, rfl⟩)
      obtain ⟨iha, ihb⟩ := ih keys hmemrest hndrest hkey hpos hne
      by_cases hjk : j.id ∈ keys
      · simp only [mainLoop, if_pos hjk]
        exact ⟨iha, ihb⟩
      · simp only [mainLoop, if_neg hjk]
        by_cases hneg : cr j < 0
        · rw [if_pos hneg]
          refine ⟨iha, ?_⟩
          intro n c h
          rcases List.mem_cons.mp h with h1 | h2
          · simp at h1
          · exact ihb n c h2
        · rw [if_neg hneg]
          by_cases hmis : cr j ≠ (j.id : Int)
          · rw [if_pos hmis]
            refine ⟨rfl, ?_⟩
            intro n c h
            simp at h
          · rw [if_neg hmis]
            refine ⟨iha, ?_⟩
            intro n c h
            rcases List.mem_cons.mp h with h1 | h2
            · simp at h1
            rw [List.append_assoc] at h2
            rcases List.mem_append.mp h2 with h3 | h4
            · obtain ⟨c2, _, hEq⟩ := List.mem_map.mp h3
              have := (Event.createComment.injEq _ _ _ _ _ _).mp hEq.symm
              exact hne_id this.2.1.symm
            rcases List.mem_append.mp h4 with h5 | h6
            · by_cases hop : IssueIsOpen j
              · rw [if_pos hop] at h5; simp at h5
              · rw [if_neg hop] at h5; simp at h5
            · exact ihb n c h6

theorem addPrevIssues_ok :
    ∀ (l : List ServiceIssue) (acc : List (Nat × PrevIssue)),
      (acc.map Prod.fst ++ l.map ServiceIssue.id).Nodup →
      addPrevIssues acc l =
        .ok (acc ++ l.map (fun s => (s.id, PrevIssue.mk s.title s.comments))) := by
  intro l
  induction l with
  | nil => intro acc _; simp [addPrevIssues]
  | cons s rest ih =>
    intro acc h
    have hdisj : s.id ∉ acc.map Prod.fst := by
      intro hmem
      have h2 : ¬ (acc.map Prod.fst).Disjoint (s.id :: rest.map ServiceIssue.id) := by
        intro hd
        exact hd hmem (List.mem_cons_self _ _)
      rw [List.map_cons, List.nodup_append] at h
      exact h2 h.2.2
    have hlook : List.lookup s.id acc = none := lookup_none_of_not_mem hdisj
    simp only [addPrevIssues, hlook, Option.isSome_none, Bool.false_eq_true, if_false]
    rw [ih (acc ++ [(s.id, PrevIssue.mk s.title s.comments)])
      (by simpa [List.append_assoc] using h)]
    simp

theorem addPrevIssues_dup :
    ∀ (l : List ServiceIssue) (acc : List (Nat × PrevIssue)),
      (acc.map Prod.fst).Nodup →
      ¬ (acc.map Prod.fst ++ l.map ServiceIssue.id).Nodup →
      addPrevIssues acc l = .error dupMsg := by
  intro l
  induction l with
  | nil => intro acc hacc h; exact absurd (by simpa using hacc) h
  | cons s rest ih =>
    intro acc hacc h
    by_cases hs : s.id ∈ acc.map Prod.fst
    · have hlook : (List.lookup s.id acc).isSome = true := (lookup_isSome_iff _ _).mpr hs
      simp [addPrevIssues, hlook]
    · have hlook : List.lookup s.id acc = none := lookup_none_of_not_mem hs
      simp only [addPrevIssues, hlook, Option.isSome_none, Bool.false_eq_true, if_false]
      apply ih
      · rw [List.map_append]
        simp [List.nodup_append, hacc, hs]
      · intro hnd
        exact h (by simpa [List.append_assoc] using hnd)

/-- C5: `FixUpComment` is a deterministic pure function of the comment text.
Once some line (at index `i` of the split) is a trigger — a heading
(leading `#`s plus a space), a line beginning `Index: `, or a line
containing `--- cut here ---` — that line and every later line (any index
`j ≥ i`) is emitted as exactly four spaces followed by the line unchanged
(so `#digits` inside the preformatted region is not rewritten); a line
before any trigger is emitted with every `#digits` substring rewritten to
`#&nbsp;digits` (`subHash`); the output has one line per input line and the
result is their newline join. -/
theorem C5_preformat_one_directional (s : Chars) :
    FixUpComment s = joinWith "\n".data (fixUpLinesAux false (splitLines s)) ∧
    (fixUpLinesAux false (splitLines s)).length = (splitLines s).length ∧
    (∀ (i j : Nat) (li lj : Chars), i ≤ j →
      (splitLines s)[i]? = some li → isTrigger li = true →
      (splitLines s)[j]? = some lj →
      (fixUpLinesAux false (splitLines s))[j]? = some (spaces4 ++ lj)) ∧
    (∀ (j : Nat) (lj : Chars),
      (∀ (i : Nat) (li : Chars), i ≤ j → (splitLines s)[i]? = some li →
        isTrigger li = false) →
      (splitLines s)[j]? = some lj →
      (fixUpLinesAux false (splitLines s))[j]? = some (subHash lj)) :=
  ⟨rfl, fixUpLinesAux_length false (splitLines s),
    fixUpLinesAux_preformat (splitLines s),
    fixUpLinesAux_plain (splitLines s)⟩

/-- Witness for C5 at the spec's concrete input: in
`"see #42\n# Heading\n#42 is broken"` the heading line (index 1) and the
`#42 is broken` line after it (index 2) are emitted indented four spaces
verbatim, while the `see #42` line before any trigger (index 0) gets the
non-breaking-space rewrite. -/
theorem C5_preformat_one_directional_witness :
    (fixUpLinesAux false (splitLines "see #42\n# Heading\n#42 is broken".data))[1]? =
      some (spaces4 ++ "# Heading".data) ∧
    (fixUpLinesAux false (splitLines "see #42\n# Heading\n#42 is broken".data))[2]? =
      some (spaces4 ++ "#42 is broken".data) ∧
    (fixUpLinesAux false (splitLines "see #42\n# Heading\n#42 is broken".data))[0]? =
      some (subHash "see #42".data) ∧
    subHash "see #42".data = "see #&nbsp;42".data ∧
    spaces4 ++ "#42 is broken".data = "    #42 is broken".data := by
  refine ⟨?_, ?_, ?_, by decide, by decide⟩
  · exact (C5_preformat_one_directional _).2.2.1 1 1 "# Heading".data "# Heading".data
      (Nat.le_refl _) (by decide) (by decide) (by decide)
  · exact (C5_preformat_one_directional _).2.2.1 1 2 "# Heading".data "#42 is broken".data
      (by decide) (by decide) (by decide) (by decide)
  · refine (C5_preformat_one_directional _).2.2.2 0 "see #42".data ?_ (by decide)
    intro i li hi hget
    have hi0 : i = 0 := Nat.le_zero.mp hi
    subst hi0
    have h0 : (splitLines "see #42\n# Heading\n#42 is broken".data)[0]? =
        some ("see #42".data) := by decide
    rw [h0] at hget
    have : li = "see #42".data := (Option.some.inj hget).symm
    subst this
    decide

/-- C6 (code bug evidence): the image-extension loop of
`GoogleCodeComment.GetContent` tests `has_extension(".png")` on every
iteration instead of the loop variable, so a non-deleted `.jpg` (or `.gif`)
attachment is rendered as a plain link rather than an inline image, while a
`.png` attachment is rendered inline; evaluated at concrete inputs. -/
theorem C6_image_extension_loop_evaluation :
    isImageAttachment "shot.jpg".data = false ∧
    isImageAttachment "shot.gif".data = false ∧
    isImageAttachment "shot.png".data = true ∧
    isImageAttachment "SHOT.PNG".data = true ∧
    attachmentLine "chromium".data 7 2 ⟨"shot.jpg".data, none⟩ =
      (" * *Attachment: [shot.jpg](https://storage.googleapis.com/google-code-attachments/chromium/issue-7/comment-2/shot.jpg)*").data ∧
    attachmentLine "chromium".data 7 2 ⟨"shot.png".data, none⟩ =
      (" * *Attachment: shot.png<br>![shot.png](https://storage.googleapis.com/google-code-attachments/chromium/issue-7/comment-2/shot.png)*").data ∧
    attachmentLine "chromium".data 7 2 ⟨"shot.png".data, some true⟩ =
      " * *Attachment: shot.png (deleted)*".data := by
  decide

/-- C9: a username with no explicit entry in a directory built by
`LoadUserData` resolves to the configured default (a total lookup, never an
error), and loading fails with the `InvalidUserError` message when some
explicitly mapped target username does not exist per the user-existence
capability. -/
theorem C9_default_user_fallback (userFile : Option (List (Chars × Chars)))
    (dflt : Chars) (isUser : Chars → Bool) :
    (∀ m, LoadUserData userFile dflt isUser = .ok m →
      m.dflt = dflt ∧ ∀ k, k ∉ m.entries.map Prod.fst → m.find k = dflt) ∧
    (∀ entries p, userFile = some entries → p ∈ entries → isUser p.2 = false →
      ∃ e, LoadUserData userFile dflt isUser = .error e) := by
  constructor
  · intro m hm
    cases userFile with
    | none =>
      simp only [LoadUserData] at hm
      have hmk := Except.ok.inj hm
      subst hmk
      exact ⟨rfl, fun k _ => rfl⟩
    | some entries =>
      simp only [LoadUserData] at hm
      cases hf : entries.find? (fun p => ! isUser p.2) with
      | some p => rw [hf] at hm; exact absurd hm (by simp)
      | none =>
        rw [hf] at hm
        have hmk := Except.ok.inj hm
        subst hmk
        refine ⟨rfl, ?_⟩
        intro k hk
        simp only [UserMap.find]
        rw [lookup_none_of_not_mem hk]
  · intro entries p hfile hp hbad
    subst hfile
    simp only [LoadUserData]
    cases hf : entries.find? (fun q => ! isUser q.2) with
    | some q => exact ⟨_, rfl⟩
    | none =>
      exfalso
      have hall := List.find?_eq_none.mp hf p hp
      simp [hbad] at hall

/-- Witness for C9: with one explicit entry `alice ↦ bob` and a service
where `bob` exists, the unknown key `carol` falls back to the default
`owner`; with a service where nothing exists, loading the same file fails. -/
theorem C9_default_user_fallback_witness :
    (UserMap.mk [("alice".data, "bob".data)] "owner".data).find "carol".data =
      "owner".data ∧
    ∃ e, LoadUserData (some [("alice".data, "bob".data)]) "owner".data
      (fun _ => false) = .error e := by
  constructor
  · have h := (C9_default_user_fallback (some [("alice".data, "bob".data)])
      "owner".data (fun _ => true)).1
      (UserMap.mk [("alice".data, "bob".data)] "owner".data) rfl
    exact h.2 "carol".data (by decide)
  · exact (C9_default_user_fallback (some [("alice".data, "bob".data)])
      "owner".data (fun _ => false)).2 [("alice".data, "bob".data)]
      ("alice".data, "bob".data) rfl (by decide) (by decide)

/-- C10: `GoogleCodeComment.GetContent` renders the `(deleted)` notice for
an attachment exactly when its dictionary has an `isDeleted` key, regardless
of the value (`some b` for any `b` yields the notice); with the key absent
(`none`) it renders the image or plain-link form. -/
theorem C10_isDeleted_key_presence (project : Chars) (issueId : Nat) (c : GCCommentRec)
    (a : Attachment) (hatt : c.attachments = some [a]) :
    GetContent project issueId c =
      c.content ++ "\n<hr>\n".data ++ attachmentLine project issueId c.id a ∧
    (∀ b, a.isDeleted = some b →
      attachmentLine project issueId c.id a =
        " * *Attachment: ".data ++ a.fileName ++ " (deleted)*".data) ∧
    (a.isDeleted = none →
      attachmentLine project issueId c.id a =
        (if isImageAttachment a.fileName then
          " * *Attachment: ".data ++ a.fileName ++ "<br>![".data ++ a.fileName
            ++ "](".data ++ storageLink project issueId c.id a.fileName ++ ")*".data
        else
          " * *Attachment: [".data ++ a.fileName ++ "](".data
            ++ storageLink project issueId c.id a.fileName ++ ")*".data)) := by
  refine ⟨?_, ?_, ?_⟩
  · simp [GetContent, hatt, joinWith]
  · intro b hb
    simp [attachmentLine, hb]
  · intro hb
    simp [attachmentLine, hb]

/-- Witness for C10: an attachment with `isDeleted` present but `false` is
still rendered as deleted; the same filename without the key is rendered as
a link. -/
theorem C10_isDeleted_key_presence_witness :
    attachmentLine "p".data 1 0 ⟨"a.txt".data, some false⟩ =
      " * *Attachment: ".data ++ "a.txt".data ++ " (deleted)*".data ∧
    GetContent "p".data 1
        ⟨0, none, "d".data, "body".data, some [⟨"a.txt".data, some false⟩]⟩ =
      "body".data ++ "\n<hr>\n".data
        ++ attachmentLine "p".data 1 0 ⟨"a.txt".data, some false⟩ := by
  constructor
  · exact (C10_isDeleted_key_presence "p".data 1
      ⟨0, none, "d".data, "body".data, some [⟨"a.txt".data, some false⟩]⟩
      ⟨"a.txt".data, some false⟩ rfl).2.1 false rfl
  · exact (C10_isDeleted_key_presence "p".data 1
      ⟨0, none, "d".data, "body".data, some [⟨"a.txt".data, some false⟩]⟩
      ⟨"a.txt".data, some false⟩ rfl).1

/-- C1: when the reconciliation index is non-empty, its highest id has a
matching canonical issue (same id and title) and records fewer comments than
the canonical issue has (description excluded), the startup repair pass of
`Start` issues exactly one `CreateComment` per canonical comment of index
`≥` the recorded count, in canonical order, addressed to that highest id —
and none for any index below the recorded count; these events form the
prefix of the `Start` trace before the main loop's events. -/
theorem C1_resume_repair (prev : List (Nat × PrevIssue)) (archive : List GCIssueRec)
    (cr : GCIssueRec → Int) (gh : PrevIssue) (gc : GCIssueRec)
    (hne : prev.length ≠ 0)
    (hlook : List.lookup (lastGhIssueId prev).toNat prev = some gh)
    (hfind : archive.find?
      (fun i => i.id == (lastGhIssueId prev).toNat && i.title == gh.title) = some gc)
    (hlt : gh.commentCount < (GetComments gc).length) :
    gc.id = (lastGhIssueId prev).toNat ∧
    startRepair prev archive =
      .ok (((GetComments gc).drop gh.commentCount).map
        (fun c => Event.createComment (gc.id : Int) gc.id c)) ∧
    (Start prev archive cr).1 =
      ((GetComments gc).drop gh.commentCount).map
        (fun c => Event.createComment (gc.id : Int) gc.id c)
        ++ (mainLoop (prev.map Prod.fst) cr archive).1 := by
  have hid : gc.id = (lastGhIssueId prev).toNat := by
    have hp := List.find?_some hfind
    simp only [Bool.and_eq_true, beq_iff_eq] at hp
    exact hp.1
  have hrep : startRepair prev archive =
      .ok (((GetComments gc).drop gh.commentCount).map
        (fun c => Event.createComment (gc.id : Int) gc.id c)) := by
    simp only [startRepair, hlook, hfind]
    rw [if_pos (Nat.ne_of_lt hlt)]
    congr 1
    rw [← map_getD_range'_eq_drop (GCCommentRec.mk 0 none [] [] none) (GetComments gc)
      gh.commentCount (Nat.le_of_lt hlt), List.map_map]
    rfl
  refine ⟨hid, hrep, ?_⟩
  simp [Start, hne, hrep]

def c1desc : GCCommentRec := ⟨0, none, "2010".data, "description".data, none⟩

def c1c1 : GCCommentRec := ⟨1, none, "2011".data, "first".data, none⟩

def c1c2 : GCCommentRec := ⟨2, none, "2012".data, "second".data, none⟩

def c1issue : GCIssueRec := ⟨1, "t".data, "fixed".data, none, [c1desc, c1c1, c1c2]⟩

/-- Witness for C1: one previously-created issue with id 1 recording 1
comment while the canonical issue has 2 (description excluded): the repair
pass creates exactly the second comment, addressed to issue 1. -/
theorem C1_resume_repair_witness :
    startRepair [(1, PrevIssue.mk "t".data 1)] [c1issue] =
      .ok [Event.createComment 1 1 c1c2] ∧
    (Start [(1, PrevIssue.mk "t".data 1)] [c1issue] (fun i => (i.id : Int))).1 =
      [Event.createComment 1 1 c1c2]
        ++ (mainLoop [1] (fun i => (i.id : Int)) [c1issue]).1 := by
  have h := C1_resume_repair [(1, PrevIssue.mk "t".data 1)] [c1issue]
    (fun i => (i.id : Int)) (PrevIssue.mk "t".data 1) c1issue
    (by decide) (by decide) (by decide) (by decide)
  exact ⟨h.2.1, h.2.2⟩

/-- C2: for an archive issue (distinct source ids) that is not in the
reconciliation index, if `CreateIssue` returns a non-negative number that
differs from the source id, `Start` raises a fatal error and the trace
contains no `CreateComment` call for that issue. -/
theorem C2_id_mismatch_abort (prev : List (Nat × PrevIssue)) (archive : List GCIssueRec)
    (cr : GCIssueRec → Int) (i : GCIssueRec) (hmem : i ∈ archive)
    (hnd : (archive.map GCIssueRec.id).Nodup)
    (hkey : i.id ∉ prev.map Prod.fst)
    (hpos : 0 ≤ cr i) (hne : cr i ≠ (i.id : Int)) :
    (Start prev archive cr).2.1.isSome = true ∧
    ∀ (n : Int) (c : GCCommentRec),
      Event.createComment n i.id c ∉ (Start prev archive cr).1 := by
  by_cases hp : prev.length ≠ 0
  · cases hrep : startRepair prev archive with
    | error e =>
      constructor
      · simp [Start, hp, hrep]
      · intro n c h
        simp [Start, hp, hrep] at h
    | ok evs =>
      obtain ⟨ha, hb⟩ :=
        mainLoop_mismatch cr i archive (prev.map Prod.fst) hmem hnd hkey hpos hne
      constructor
      · simpa [Start, hp, hrep] using ha
      · intro n c h
        simp only [Start, hp, hrep] at h
        rw [if_pos hp] at h
        rcases List.mem_append.mp (by simpa using h) with h1 | h2
        · obtain ⟨n2, s2, c2, hEq, hs⟩ := startRepair_events_comment hrep _ h1
          have hinj := (Event.createComment.injEq _ _ _ _ _ _).mp hEq
          exact hkey (by rw [hinj.2.1]; exact hs)
        · exact hb n c h2
  · have hp0 : prev.length = 0 := by simpa using hp
    obtain ⟨ha, hb⟩ :=
      mainLoop_mismatch cr i archive (prev.map Prod.fst) hmem hnd hkey hpos hne
    constructor
    · simpa [Start, hp0] using ha
    · intro n c h
      rw [show (Start prev archive cr).1 = (mainLoop (prev.map Prod.fst) cr archive).1
        from by simp [Start, hp0]] at h
      exact hb n c h

def c2issue : GCIssueRec := ⟨1, "t2".data, "new".data, some "open".data, [c1desc]⟩

/-- Witness for C2: the service returns 5 for source issue 1; `Start` halts
with an error and creates no comment for issue 1. -/
theorem C2_id_mismatch_abort_witness :
    (Start [] [c2issue] (fun _ => 5)).2.1.isSome = true ∧
    Event.createComment 5 1 c1desc ∉ (Start [] [c2issue] (fun _ => 5)).1 := by
  have h := C2_id_mismatch_abort [] [c2issue] (fun _ => 5) c2issue (by decide)
    (by decide) (by decide) (by decide) (by decide)
  exact ⟨h.1, h.2 5 c1desc⟩

/-- C3: in the main loop an issue whose id is a key of the reconciliation
index is skipped — `skipped_issues` is incremented and the iteration adds no
event, so no `CreateIssue` and no `CreateComment` for it; consequently when
every archive issue id is already in the index the whole `Start` trace
contains no `CreateIssue` call. -/
theorem C3_already_present_skip (prev : List (Nat × PrevIssue))
    (archive : List GCIssueRec) (cr : GCIssueRec → Int) :
    (∀ (i : GCIssueRec) (rest : List GCIssueRec), i.id ∈ prev.map Prod.fst →
      mainLoop (prev.map Prod.fst) cr (i :: rest) =
        ((mainLoop (prev.map Prod.fst) cr rest).1,
         (mainLoop (prev.map Prod.fst) cr rest).2.1,
         (mainLoop (prev.map Prod.fst) cr rest).2.2 + 1)) ∧
    ((∀ i ∈ archive, i.id ∈ prev.map Prod.fst) →
      ∀ j : GCIssueRec, Event.createIssue j ∉ (Start prev archive cr).1) := by
  constructor
  · intro i rest hi
    simp [mainLoop, hi]
  · intro hall j
    have hskip := mainLoop_all_skipped (prev.map Prod.fst) cr archive hall
    by_cases hp : prev.length ≠ 0
    · cases hrep : startRepair prev archive with
      | error e => simp [Start, hp, hrep]
      | ok evs =>
        intro h
        simp only [Start, hp, hrep] at h
        rw [if_pos hp, hskip] at h
        obtain ⟨n, s, c, hEq, _⟩ :=
          startRepair_events_comment hrep _ (by simpa using h)
        simp at hEq
    · have hp0 : prev.length = 0 := by simpa using hp
      simp [Start, hp0, hskip]

/-- Witness for C3: issue id 1 is already recorded, so the loop iteration
only bumps the skip counter, and the full run creates no issue. -/
theorem C3_already_present_skip_witness :
    mainLoop [1] (fun i => (i.id : Int)) [c2issue] =
      ((mainLoop [1] (fun i => (i.id : Int)) []).1,
       (mainLoop [1] (fun i => (i.id : Int)) []).2.1,
       (mainLoop [1] (fun i => (i.id : Int)) []).2.2 + 1) ∧
    Event.createIssue c2issue ∉
      (Start [(1, PrevIssue.mk "t2".data 0)] [c2issue] (fun i => (i.id : Int))).1 := by
  have h := C3_already_present_skip [(1, PrevIssue.mk "t2".data 0)] [c2issue]
    (fun i => (i.id : Int))
  exact ⟨h.1 c2issue [] (by decide), h.2 (by decide) c2issue⟩

/-- The concrete issue refuting C4: its source status is `fixed` (not open)
but its `state` key is `open`, so the main loop never calls `CloseIssue`
even though the claim requires closure for any non-open source status. -/
def statusFixedStateOpen : GCIssueRec :=
  ⟨1, "t".data, "fixed".data, some "open".data, [c1desc]⟩

/-- Counterexample to C4: an issue whose `GetStatus` is `fixed` (≠ open) is
nevertheless never closed by the run, because the code closes based on the
`state` key (`IsOpen`), which here is `open`. -/
theorem C4_counterexample_status_not_closed :
    GetStatus statusFixedStateOpen ≠ "open".data ∧
    (Start [] [statusFixedStateOpen] (fun i => (i.id : Int))).1 =
      [Event.createIssue statusFixedStateOpen] ∧
    ∀ n : Int, Event.closeIssue n ∉
      (Start [] [statusFixedStateOpen] (fun i => (i.id : Int))).1 := by
  have htr : (Start [] [statusFixedStateOpen] (fun i => (i.id : Int))).1 =
      [Event.createIssue statusFixedStateOpen] := by decide
  refine ⟨by decide, htr, ?_⟩
  intro n h
  rw [htr] at h
  simp at h

/-- C4 amended: `GetStatus` maps source status `accepted` to `open` and
leaves `open` as `open`; but in the main loop closing is decided by the
`state` key (`IsOpen`), not by `GetStatus`: a created issue is closed via
`CloseIssue` after all of its comments are replayed exactly when its state
is not `open`, and is never closed when its state is `open`. -/
theorem C4_amended_close_follows_state (keys : List Nat) (cr : GCIssueRec → Int)
    (i : GCIssueRec) (rest : List GCIssueRec) :
    (lowerChars i.status = "accepted".data → GetStatus i = "open".data) ∧
    (lowerChars i.status = "open".data → GetStatus i = "open".data) ∧
    (i.id ∉ keys → cr i = (i.id : Int) →
      mainLoop keys cr (i :: rest) =
        (Event.createIssue i ::
          ((GetComments i).map (fun c => Event.createComment (i.id : Int) i.id c)
            ++ ((if IssueIsOpen i then ([] : List Event)
                else [Event.closeIssue (i.id : Int)])
              ++ (mainLoop keys cr rest).1)),
         (mainLoop keys cr rest).2.1, (mainLoop keys cr rest).2.2)) := by
  refine ⟨?_, ?_, ?_⟩
  · intro h
    simp [GetStatus, h]
  · intro h
    simp only [GetStatus, h]
    rw [if_neg (by decide)]
  · intro hkey hcr
    have hneg : ¬ cr i < 0 := by rw [hcr]; omega
    have hmis : ¬ cr i ≠ (i.id : Int) := by simp [hcr]
    simp only [mainLoop, if_neg hkey, if_neg hneg, if_neg hmis, hcr]
    simp [List.append_assoc]

def c4closed : GCIssueRec := ⟨2, "u".data, "wontfix".data, none, [c1desc, c1c1]⟩

def c4accepted : GCIssueRec := ⟨3, "v".data, "Accepted".data, some "open".data, [c1desc]⟩

/-- Witness for C4 amended: an `Accepted` status maps to `open`; a
`wontfix` issue with no open state is closed right after its single comment
is replayed. -/
theorem C4_amended_close_follows_state_witness :
    GetStatus c4accepted = "open".data ∧
    mainLoop [] (fun i => (i.id : Int)) [c4closed] =
      (Event.createIssue c4closed ::
        ((GetComments c4closed).map
            (fun c => Event.createComment (c4closed.id : Int) c4closed.id c)
          ++ ((if IssueIsOpen c4closed then ([] : List Event)
              else [Event.closeIssue (c4closed.id : Int)])
            ++ (mainLoop [] (fun i => (i.id : Int)) []).1)),
       (mainLoop [] (fun i => (i.id : Int)) []).2.1,
       (mainLoop [] (fun i => (i.id : Int)) []).2.2) := by
  constructor
  · exact (C4_amended_close_follows_state [] (fun i => (i.id : Int))
      c4accepted []).1 (by decide)
  · exact (C4_amended_close_follows_state [] (fun i => (i.id : Int))
      c4closed []).2.2 (by decide) rfl

/-- C7 (with `die` modelled from the spec): if the union of the target
service's open and closed issue lists contains two entries with the same id,
`_GetAllPreviousIssues` aborts the run with the human-readable duplicate-id
message; on success the index records every issue's own title and comment
count, so the first entry is never silently overwritten. -/
theorem C7_duplicate_target_id_fatal (openIssues closedIssues : List ServiceIssue) :
    (¬ ((openIssues ++ closedIssues).map ServiceIssue.id).Nodup →
      GetAllPreviousIssues openIssues closedIssues = .error dupMsg) ∧
    (∀ m, GetAllPreviousIssues openIssues closedIssues = .ok m →
      m = (openIssues ++ closedIssues).map
        (fun s => (s.id, PrevIssue.mk s.title s.comments))) := by
  constructor
  · intro h
    exact addPrevIssues_dup (openIssues ++ closedIssues) [] (by simp) (by simpa using h)
  · intro m hm
    by_cases hnd : ((openIssues ++ closedIssues).map ServiceIssue.id).Nodup
    · have hok := addPrevIssues_ok (openIssues ++ closedIssues) [] (by simpa using hnd)
      rw [GetAllPreviousIssues, hok] at hm
      simpa using (Except.ok.inj hm).symm
    · have herr := addPrevIssues_dup (openIssues ++ closedIssues) [] (by simp)
        (by simpa using hnd)
      rw [GetAllPreviousIssues, herr] at hm
      exact absurd hm (by simp)

/-- Witness for C7: two service issues sharing id 1 abort with the
duplicate-id message; with distinct ids 1 and 2 the index records both
entries verbatim. -/
theorem C7_duplicate_target_id_fatal_witness :
    GetAllPreviousIssues [ServiceIssue.mk 1 "a".data 0] [ServiceIssue.mk 1 "b".data 2] =
      .error dupMsg ∧
    [(1, PrevIssue.mk "a".data 0), (2, PrevIssue.mk "b".data 2)] =
      ([ServiceIssue.mk 1 "a".data 0] ++ [ServiceIssue.mk 2 "b".data 2]).map
        (fun s => (s.id, PrevIssue.mk s.title s.comments)) := by
  constructor
  · exact (C7_duplicate_target_id_fatal [ServiceIssue.mk 1 "a".data 0]
      [ServiceIssue.mk 1 "b".data 2]).1 (by decide)
  · exact (C7_duplicate_target_id_fatal [ServiceIssue.mk 1 "a".data 0]
      [ServiceIssue.mk 2 "b".data 2]).2
      [(1, PrevIssue.mk "a".data 0), (2, PrevIssue.mk "b".data 2)] rfl

def c8comment : GCCommentRec :=
  ⟨2, some "alice".data, "2010-01-02".data, "hi".data, none⟩

def c8map : UserMap := ⟨[("alice".data, "alice".data)], "bob".data⟩

/-- Counterexample to C8: at a concrete comment the header emitted by
`GetDescription` is the markdown link `Comment [#2](url)`, not the claimed
plain `Comment #2(url)` — the output differs from the string the claim
prescribes. -/
theorem C8_counterexample_header_format :
    GetDescription c8map "proj".data 7 c8comment =
      ("Comment [#2](https://code.google.com/p/proj/issues/detail?id=7#c2) originally posted by alice on 2010-01-02:\n\nhi").data ∧
    GetDescription c8map "proj".data 7 c8comment ≠
      ("Comment #2(https://code.google.com/p/proj/issues/detail?id=7#c2) originally posted by alice on 2010-01-02:\n\nhi").data := by
  exact ⟨by decide, by decide⟩

/-- C8 amended: `GetDescription` returns exactly the normalized comment text
— or the literal `&lt;empty&gt;` placeholder when the raw content is empty
(normalization preserves emptiness, so this coincides with emptiness after
normalization) — prefixed with the markdown-link header
`Comment [#id](source_url#c id) originally posted by author on date:`
followed by a blank line, where the url is built from project name and issue
id (plus the comment id fragment). -/
theorem C8_amended_markdown_header (m : UserMap) (project : Chars) (issueId : Nat)
    (c : GCCommentRec) :
    (GetContent project issueId c ≠ [] →
      GetDescription m project issueId c =
        "Comment [#".data ++ natChars c.id ++ "](".data ++ commentUrl project issueId c.id
          ++ ") originally posted by ".data ++ formatOpt (GetAuthor m c) ++ " on ".data
          ++ c.published ++ ":\n\n".data
          ++ FixUpComment (GetContent project issueId c)) ∧
    (GetContent project issueId c = [] →
      GetDescription m project issueId c =
        "Comment [#".data ++ natChars c.id ++ "](".data ++ commentUrl project issueId c.id
          ++ ") originally posted by ".data ++ formatOpt (GetAuthor m c) ++ " on ".data
          ++ c.published ++ ":\n\n".data ++ "&lt;empty&gt;".data) := by
  constructor <;> intro h <;> simp [GetDescription, h]

/-- Witness for C8 amended: the non-empty branch at the concrete comment. -/
theorem C8_amended_markdown_header_witness :
    GetDescription c8map "proj".data 7 c8comment =
      "Comment [#".data ++ natChars c8comment.id ++ "](".data
        ++ commentUrl "proj".data 7 c8comment.id ++ ") originally posted by ".data
        ++ formatOpt (GetAuthor c8map c8comment) ++ " on ".data
        ++ c8comment.published ++ ":\n\n".data
        ++ FixUpComment (GetContent "proj".data 7 c8comment) :=
  (C8_amended_markdown_header c8map "proj".data 7 c8comment).1 (by decide)
